import Mathlib

/-!
Verification of `src/python/pants/backend/jvm/tasks/consolidate_classpath.py`
(the `ConsolidateClasspath` task).

The task is orchestration glue over framework collaborators that are not part
of the excerpt, so the embedding keeps the task's own control flow exactly and
models each missing collaborator explicitly:

* `ClasspathUtil.is_dir` (not under src/) only queries the filesystem, so the
  embedding is parameterised by a predicate `is_dir : String → Bool`.
* `ClasspathProducts` (not under src/) is modelled from the spec as a mapping
  from target to an ordered sequence of `(conf, path)` entries; see
  `getEntries`, `setEntries` and `replaceTuple` below.
* the invalidation framework hands the loop one validity token per target; it
  is modelled as a function `oracle : Target → VtInfo` giving the `valid` flag
  and the `results_dir` of the token.
* `open_jar`/`jar.write` may succeed or raise; the environment decides via
  `writeOk : String → String → Bool` (archive path, source directory), and the
  run records every writer invocation as a `WriteEvent`.

Machine behaviour that the claims quantify over (which run fails, which paths
are directories) is therefore explicit input, and the run's result is an
`Outcome`: the final manifest, the ordered log of writer invocations, and, on
a writer failure, the failing target and archive path (the exception that
propagates out of `execute`).
-/

namespace ConsolidateClasspath

/-- Build targets are opaque identifiers compared by identity. -/
abbrev Target := Nat

/-- One classpath entry of a target: a `(conf, path)` pair; `e.2` is the
filesystem path that `ClasspathUtil.is_dir` inspects. -/
abbrev Entry := String × String

/-- Modelled from the spec: `ClasspathProducts` (not under src/) is a mapping
from target to an ordered sequence of entries. -/
abbrev Manifest := List (Target × List Entry)

/-- Decimal digit rendering used by `'output-{}.jar'.format(index)`: the
character at code point `48 + d` is the digit character of `d` for `d < 10`. -/
def decDigit (d : Nat) : Char := Char.ofNat (48 + d)

/-- Big-endian decimal digits of `n`, with `fuel ≥ n` as structural fuel. -/
def natCharsCore : Nat → Nat → List Char
  | 0, _ => []
  | fuel + 1, n =>
    if n = 0 then [] else natCharsCore fuel (n / 10) ++ [decDigit (n % 10)]

/-- Decimal rendering of a natural number, as Python's `'{}'.format(n)`. -/
def natChars (n : Nat) : List Char :=
  if n = 0 then ['0'] else natCharsCore n n

/-- Decimal rendering of a natural number as a string. -/
def natString (n : Nat) : String :=
  String.mk (natChars n)

/-- Archive path for the entry at position `index` of a target's sequence:
`os.path.join(vt.results_dir, 'output-{}.jar'.format(index))`. -/
def jarpathFor (results_dir : String) (index : Nat) : String :=
  results_dir ++ "/output-" ++ natString index ++ ".jar"

/-- Modelled from the spec: `get_internal_classpath_entries_for_targets([t])`
returns the target's ordered entry sequence; a target not present in the
manifest has the empty sequence. -/
def getEntries : Manifest → Target → List Entry
  | [], _ => []
  | p :: m, t => if p.1 = t then p.2 else getEntries m t

/-- Modelled from the spec: store a new entry sequence for a target, leaving
every other target's sequence untouched. -/
def setEntries : Manifest → Target → List Entry → Manifest
  | [], t, es => [(t, es)]
  | p :: m, t, es => if p.1 = t then (t, es) :: m else p :: setEntries m t es

/-- Modelled from the spec: the engine's `remove_for_target` of the old
`(conf, path)` tuple followed by `add_for_target` of the new one; the spec
mandates that the pair of calls swaps directory for archive in place at the
same index/slot, so the tuple is replaced where it stands. -/
def replaceTuple (old new : Entry) (es : List Entry) : List Entry :=
  es.map fun e => if e = old then new else e

/-- Validity token for one target, as produced by `self.invalidated`: the
`valid` flag of the versioned target and its `results_dir`. -/
structure VtInfo where
  valid : Bool
  results_dir : String
deriving DecidableEq

/-- One invocation of the archive writer (`open_jar` + `jar.write`): the
target being processed, the archive path opened, and the directory written. -/
structure WriteEvent where
  target : Target
  jarpath : String
  source : String
deriving DecidableEq

/-- Result of a run: either success with the final manifest and the writer
log, or the writer exception that propagates, carrying the failing target,
the archive path whose write failed, the manifest as mutated so far, and the
writer log so far. -/
inductive Outcome
  | ok (manifest : Manifest) (writes : List WriteEvent)
  | failed (target : Target) (jarpath : String) (manifest : Manifest)
      (writes : List WriteEvent)
deriving DecidableEq

/-- Manifest component of an outcome (the state of `classpath_products` when
the run returns or when the exception escapes). -/
def Outcome.manifest : Outcome → Manifest
  | .ok m _ => m
  | .failed _ _ m _ => m

/-- Inner loop of `_consolidate_classpath` over
`enumerate(entries)` for one target: `snap` is the snapshot of the target's
entries taken before the loop, `cur` the target's current entry sequence, and
`ws` the writer log so far.  A directory entry gets the archive path for its
snapshot position; for an invalid token the writer runs first (and a writer
failure propagates before the manifest is touched for that entry); in either
case the directory tuple is then replaced by the archive tuple. -/
def runEntries (is_dir : String → Bool) (writeOk : String → String → Bool)
    (results_dir : String) (valid : Bool) (t : Target) :
    List (Nat × Entry) → List Entry → List WriteEvent →
    Except (String × List Entry × List WriteEvent) (List Entry × List WriteEvent)
  | [], cur, ws => Except.ok (cur, ws)
  | (index, e) :: rest, cur, ws =>
    if is_dir e.2 then
      let jarpath := jarpathFor results_dir index
      if valid then
        runEntries is_dir writeOk results_dir valid t rest
          (replaceTuple e (e.1, jarpath) cur) ws
      else if writeOk jarpath e.2 then
        runEntries is_dir writeOk results_dir valid t rest
          (replaceTuple e (e.1, jarpath) cur) (ws ++ [⟨t, jarpath, e.2⟩])
      else
        Except.error (jarpath, cur, ws ++ [⟨t, jarpath, e.2⟩])
    else
      runEntries is_dir writeOk results_dir valid t rest cur ws

/-- Body of `_consolidate_classpath` for a single versioned target: snapshot
the target's entries, run the entry loop, and store the target's resulting
sequence (mutations inside the loop only ever touch this target's sequence,
so storing the loop's result is the same mutation). -/
def consolidateTarget (is_dir : String → Bool) (writeOk : String → String → Bool)
    (oracle : Target → VtInfo) (m : Manifest) (ws : List WriteEvent) (t : Target) :
    Except (String × Manifest × List WriteEvent) (Manifest × List WriteEvent) :=
  let vt := oracle t
  let es := getEntries m t
  match runEntries is_dir writeOk vt.results_dir vt.valid t es.enum es ws with
  | .ok (es', ws') => .ok (setEntries m t es', ws')
  | .error (jp, es', ws') => .error (jp, setEntries m t es', ws')

/-- Loop of `_consolidate_classpath` over `invalidation.all_vts`: targets are
processed in order; the first writer failure aborts the run with the partial
manifest. -/
def consolidateTargets (is_dir : String → Bool) (writeOk : String → String → Bool)
    (oracle : Target → VtInfo) :
    List Target → Manifest → List WriteEvent → Outcome
  | [], m, ws => .ok m ws
  | t :: ts, m, ws =>
    match consolidateTarget is_dir writeOk oracle m ws t with
    | .ok (m', ws') => consolidateTargets is_dir writeOk oracle ts m' ws'
    | .error (jp, m', ws') => .failed t jp m' ws'

/-- `_consolidate_classpath(targets, classpath_products)`. -/
def _consolidate_classpath (is_dir : String → Bool)
    (writeOk : String → String → Bool) (oracle : Target → VtInfo)
    (targets : List Target) (m : Manifest) : Outcome :=
  consolidateTargets is_dir writeOk oracle targets m []

/-- Scan of one target's entry sequence in
`_find_consolidate_classpath_candidates`: true at the first entry whose path
is a directory (the loop breaks there), false when the sequence is exhausted. -/
def hasClasspathDirectory (is_dir : String → Bool) : List Entry → Bool
  | [] => false
  | e :: es => if is_dir e.2 then true else hasClasspathDirectory is_dir es

/-- `_find_consolidate_classpath_candidates(classpath_products, targets)`:
the sub-list of targets that have a directory entry. -/
def _find_consolidate_classpath_candidates (is_dir : String → Bool)
    (m : Manifest) (targets : List Target) : List Target :=
  targets.filter fun t => hasClasspathDirectory is_dir (getEntries m t)

/-- The two products `execute` touches: `runtime_classpath` (required input)
and `consolidated_classpath` (this task's product, absent before the first
run). -/
structure Products where
  runtime_classpath : Manifest
  consolidated_classpath : Option Manifest
deriving DecidableEq

/-- `execute()`: fetch `consolidated_classpath`, initialising it as a copy of
`runtime_classpath` when absent, compute the candidate targets, and run
`_consolidate_classpath` on them.  Returns the products as left behind by the
run together with the run's outcome (the manifest is stored in the context's
product map in place, so it reflects the run even when the writer exception
escapes). -/
def execute (is_dir : String → Bool) (writeOk : String → String → Bool)
    (oracle : Target → VtInfo) (targets : List Target) (p : Products) :
    Products × Outcome :=
  let consolidated := p.consolidated_classpath.getD p.runtime_classpath
  let candidates := _find_consolidate_classpath_candidates is_dir consolidated targets
  let out := _consolidate_classpath is_dir writeOk oracle candidates consolidated
  (⟨p.runtime_classpath, some out.manifest⟩, out)

/-- Effect of processing one snapshot item on a single entry: if the snapshot
item `(i, e)` is a directory entry and `x` is the same tuple, `x` becomes the
archive tuple for position `i`; otherwise `x` is untouched. -/
def replOne (is_dir : String → Bool) (rd : String) (ie : Nat × Entry) (x : Entry) : Entry :=
  if is_dir ie.2.2 = true ∧ x = ie.2 then (ie.2.1, jarpathFor rd ie.1) else x

/-- Cumulative effect of a snapshot on a single entry. -/
def chainRepl (is_dir : String → Bool) (rd : String) : List (Nat × Entry) → Entry → Entry
  | [], x => x
  | ie :: snap, x => chainRepl is_dir rd snap (replOne is_dir rd ie x)

/-- Writer invocations that an invalid target's snapshot produces: one per
directory entry, in snapshot order. -/
def eventsOf (is_dir : String → Bool) (rd : String) (t : Target)
    (snap : List (Nat × Entry)) : List WriteEvent :=
  snap.filterMap fun ie =>
    if is_dir ie.2.2 then some ⟨t, jarpathFor rd ie.1, ie.2.2⟩ else none

/-- Entry sequence after consolidating one target: each directory entry at
position `k + j` is swapped in place for the archive tuple of that position,
every other entry is untouched. -/
def swapAll (is_dir : String → Bool) (rd : String) : Nat → List Entry → List Entry
  | _, [] => []
  | k, e :: es =>
    (if is_dir e.2 then (e.1, jarpathFor rd k) else e) :: swapAll is_dir rd (k + 1) es

/-- Value of a big-endian decimal digit string, used to invert `natChars`. -/
def fromChars : Nat → List Char → Nat
  | a, [] => a
  | a, c :: cs => fromChars (10 * a + (c.toNat - 48)) cs

/-- Directory predicate used by the concrete scenarios below: the four loose
class directories of the example manifests are directories, nothing else is. -/
def sampleIsDir : String → Bool := fun s =>
  s == "/build/T1/classes" || s == "/b/1/c" || s == "/b/2/c" || s == "/b/3/c"

/-- Writer that always succeeds. -/
def sampleWriteOk : String → String → Bool := fun _ _ => true

/-- Oracle reporting every target invalid, with results dir `/out/T1`. -/
def sampleOracle : Target → VtInfo := fun _ => ⟨false, "/out/T1"⟩

/-- Oracle reporting every target valid, with results dir `/out/T1`. -/
def validOracle : Target → VtInfo := fun _ => ⟨true, "/out/T1"⟩

/-- The spec's example manifest: target 1 has a loose directory entry, target
2 already references an archive. -/
def sampleManifest : Manifest :=
  [(1, [("default", "/build/T1/classes")]), (2, [("default", "/build/T2/out.jar")])]

/-- Oracle for the failing scenario: every target invalid, results dir `/out`. -/
def failOracle : Target → VtInfo := fun _ => ⟨false, "/out"⟩

/-- Writer that fails exactly on target 2's class directory. -/
def failWriteOk : String → String → Bool := fun _ src => !(src == "/b/2/c")

/-- Manifest for the failing scenario: three targets, each with one loose
directory entry. -/
def failManifest : Manifest :=
  [(1, [("default", "/b/1/c")]), (2, [("default", "/b/2/c")]), (3, [("default", "/b/3/c")])]

theorem decDigit_toNat (d : Nat) (h : d < 10) : (decDigit d).toNat - 48 = d := by
  have hv : (48 + d).isValidChar := Or.inl (by omega)
  unfold decDigit Char.ofNat
  rw [dif_pos hv]
  show (Char.ofNatAux (48 + d) hv).toNat - 48 = d
  simp only [Char.ofNatAux, Char.toNat, UInt32.toNat, UInt32.ofNat', BitVec.toNat_ofNatLt]
  omega

theorem fromChars_cons (a : Nat) (c : Char) (cs : List Char) :
    fromChars a (c :: cs) = fromChars (10 * a + (c.toNat - 48)) cs := rfl

theorem fromChars_append_digit (a : Nat) (xs : List Char) (c : Char) :
    fromChars a (xs ++ [c]) = 10 * fromChars a xs + (c.toNat - 48) := by
  induction xs generalizing a with
  | nil => rfl
  | cons x xs ih =>
    rw [List.cons_append, fromChars_cons, fromChars_cons]
    exact ih _

theorem fromChars_natCharsCore (fuel : Nat) :
    ∀ n, n ≤ fuel → fromChars 0 (natCharsCore fuel n) = n := by
  induction fuel with
  | zero =>
    intro n h
    have hn : n = 0 := Nat.le_zero.mp h
    subst hn; rfl
  | succ fuel ih =>
    intro n h
    by_cases h0 : n = 0
    · subst h0; rfl
    · have hlt : n / 10 < n := Nat.div_lt_self (Nat.pos_of_ne_zero h0) (by norm_num)
      have hdiv : n / 10 ≤ fuel := by omega
      simp only [natCharsCore, if_neg h0]
      rw [fromChars_append_digit, ih _ hdiv,
        decDigit_toNat _ (Nat.mod_lt _ (by norm_num))]
      omega

theorem fromChars_natChars (n : Nat) : fromChars 0 (natChars n) = n := by
  by_cases h : n = 0
  · subst h; rfl
  · simp only [natChars, if_neg h]
    exact fromChars_natCharsCore n n le_rfl

theorem natChars_injective {a b : Nat} (h : natChars a = natChars b) : a = b := by
  have h' := congrArg (fromChars 0) h
  rwa [fromChars_natChars, fromChars_natChars] at h'

theorem jarpathFor_data (rd : String) (i : Nat) :
    (jarpathFor rd i).data =
      rd.data ++ ("/output-".data ++ (natChars i ++ ".jar".data)) := by
  simp [jarpathFor, natString, String.data_append, List.append_assoc]

theorem jarpathFor_inj (rd : String) {i j : Nat}
    (h : jarpathFor rd i = jarpathFor rd j) : i = j := by
  have hd := congrArg String.data h
  rw [jarpathFor_data, jarpathFor_data] at hd
  have h1 := List.append_cancel_left hd
  have h2 := List.append_cancel_left h1
  exact natChars_injective (List.append_cancel_right h2)

theorem jarpath_suffix (rd : String) (i : Nat) :
    ".jar".data <:+ (jarpathFor rd i).data := by
  show ".jar".data <:+ ((rd ++ "/output-" ++ natString i) ++ ".jar").data
  rw [String.data_append]
  exact List.suffix_append _ _

theorem jarpathFor_ne_of_not_suffix (rd : String) (i : Nat) (s : String)
    (hs : ¬ (".jar".data <:+ s.data)) : jarpathFor rd i ≠ s := by
  intro h
  exact hs (h ▸ jarpath_suffix rd i)

theorem sampleIsDir_hjar : ∀ rd i, sampleIsDir (jarpathFor rd i) = false := by
  intro rd i
  simp only [sampleIsDir, Bool.or_eq_false_iff, beq_eq_false_iff_ne, ne_eq]
  refine ⟨⟨⟨?_, ?_⟩, ?_⟩, ?_⟩ <;>
    exact jarpathFor_ne_of_not_suffix _ _ _ (by decide)

theorem replOne_fst (is_dir : String → Bool) (rd : String) (ie : Nat × Entry) (x : Entry) :
    (replOne is_dir rd ie x).1 = x.1 := by
  unfold replOne
  split
  · rename_i hc
    rw [hc.2]
  · rfl

theorem replOne_nondir {is_dir : String → Bool} {rd : String} {ie : Nat × Entry} {x : Entry}
    (h : is_dir x.2 = false) : replOne is_dir rd ie x = x := by
  unfold replOne
  split
  · rename_i hc
    have hfalse : is_dir ie.2.2 = false := hc.2 ▸ h
    rw [hc.1] at hfalse
    exact absurd hfalse (by decide)
  · rfl

theorem replOne_ne {is_dir : String → Bool} {rd : String} {ie : Nat × Entry} {x : Entry}
    (h : x ≠ ie.2) : replOne is_dir rd ie x = x := by
  unfold replOne
  split
  · rename_i hc
    exact absurd hc.2 h
  · rfl

theorem replOne_dirfalse {is_dir : String → Bool} {rd : String} {ie : Nat × Entry}
    (h : is_dir ie.2.2 = false) (x : Entry) : replOne is_dir rd ie x = x := by
  unfold replOne
  split
  · rename_i hc
    rw [hc.1] at h
    exact absurd h (by decide)
  · rfl

theorem chainRepl_nondir {is_dir : String → Bool} {rd : String} {x : Entry}
    (h : is_dir x.2 = false) : ∀ snap, chainRepl is_dir rd snap x = x := by
  intro snap
  induction snap with
  | nil => rfl
  | cons ie snap ih =>
    rw [chainRepl, replOne_nondir h]
    exact ih

theorem chainRepl_fst (is_dir : String → Bool) (rd : String) :
    ∀ (snap : List (Nat × Entry)) (x : Entry), (chainRepl is_dir rd snap x).1 = x.1 := by
  intro snap
  induction snap with
  | nil => intro x; rfl
  | cons ie snap ih =>
    intro x
    rw [chainRepl, ih (replOne is_dir rd ie x), replOne_fst]

theorem mem_enumFrom_of_mem {α : Type} {x : α} :
    ∀ (l : List α) (n : Nat), x ∈ l → ∃ i, (i, x) ∈ l.enumFrom n := by
  intro l
  induction l with
  | nil => intro n h; cases h
  | cons e l ih =>
    intro n h
    rcases List.mem_cons.mp h with h | h
    · exact ⟨n, by rw [List.enumFrom_cons, h]; exact List.mem_cons_self _ _⟩
    · obtain ⟨i, hi⟩ := ih (n + 1) h
      exact ⟨i, by rw [List.enumFrom_cons]; exact List.mem_cons_of_mem _ hi⟩

theorem snd_mem_of_mem_enumFrom {α : Type} {ie : Nat × α} :
    ∀ (l : List α) (n : Nat), ie ∈ l.enumFrom n → ie.2 ∈ l := by
  intro l
  induction l with
  | nil => intro n h; cases h
  | cons e l ih =>
    intro n h
    rw [List.enumFrom_cons] at h
    rcases List.mem_cons.mp h with h | h
    · rw [h]
      exact List.mem_cons_self _ _
    · exact List.mem_cons_of_mem _ (ih (n + 1) h)

theorem chainRepl_dir {is_dir : String → Bool} {rd : String}
    (hjar : ∀ rd' i, is_dir (jarpathFor rd' i) = false) :
    ∀ (snap : List (Nat × Entry)) (x : Entry), (∃ i, (i, x) ∈ snap) →
      is_dir x.2 = true → is_dir (chainRepl is_dir rd snap x).2 = false := by
  intro snap
  induction snap with
  | nil =>
    rintro x ⟨i, hi⟩ _
    cases hi
  | cons ie snap ih =>
    rintro x ⟨i, hi⟩ hdir
    rw [chainRepl]
    by_cases hx : x = ie.2
    · have h1 : is_dir ie.2.2 = true := hx ▸ hdir
      have hrepl : replOne is_dir rd ie x = (ie.2.1, jarpathFor rd ie.1) := by
        unfold replOne
        rw [if_pos ⟨h1, hx⟩]
      rw [hrepl, chainRepl_nondir (hjar rd ie.1)]
      exact hjar rd ie.1
    · rw [replOne_ne hx]
      rcases List.mem_cons.mp hi with h | h
      · exact absurd (congrArg Prod.snd h) hx
      · exact ih x ⟨i, h⟩ hdir

theorem replaceTuple_eq_map {is_dir : String → Bool} {rd : String} {e : Entry} {i : Nat}
    (h : is_dir e.2 = true) (cur : List Entry) :
    replaceTuple e (e.1, jarpathFor rd i) cur = cur.map (replOne is_dir rd (i, e)) := by
  unfold replaceTuple
  refine List.map_congr_left fun x _ => ?_
  unfold replOne
  by_cases hx : x = e
  · rw [if_pos hx, if_pos ⟨h, hx⟩]
  · rw [if_neg hx, if_neg (fun hc => hx hc.2)]

theorem map_chainRepl_nil (is_dir : String → Bool) (rd : String) (cur : List Entry) :
    cur.map (chainRepl is_dir rd []) = cur := by
  have h : chainRepl is_dir rd [] = fun x => x := funext fun x => rfl
  rw [h, List.map_id']

theorem map_chainRepl_cons (is_dir : String → Bool) (rd : String) (ie : Nat × Entry)
    (snap : List (Nat × Entry)) (cur : List Entry) :
    cur.map (chainRepl is_dir rd (ie :: snap)) =
      (cur.map (replOne is_dir rd ie)).map (chainRepl is_dir rd snap) := by
  rw [List.map_map]
  exact List.map_congr_left fun x _ => rfl

theorem map_replOne_dirfalse {is_dir : String → Bool} {rd : String} {ie : Nat × Entry}
    (h : is_dir ie.2.2 = false) (cur : List Entry) :
    cur.map (replOne is_dir rd ie) = cur := by
  have h' : cur.map (replOne is_dir rd ie) = cur.map (fun x => x) :=
    List.map_congr_left fun x _ => replOne_dirfalse h x
  rw [h', List.map_id']

theorem eventsOf_cons_dir {is_dir : String → Bool} {rd : String} {t : Target}
    {index : Nat} {e : Entry} (h : is_dir e.2 = true) (snap : List (Nat × Entry)) :
    eventsOf is_dir rd t ((index, e) :: snap) =
      ⟨t, jarpathFor rd index, e.2⟩ :: eventsOf is_dir rd t snap := by
  unfold eventsOf
  rw [List.filterMap_cons]
  simp [h]

theorem eventsOf_cons_nondir {is_dir : String → Bool} {rd : String} {t : Target}
    {index : Nat} {e : Entry} (h : is_dir e.2 = false) (snap : List (Nat × Entry)) :
    eventsOf is_dir rd t ((index, e) :: snap) = eventsOf is_dir rd t snap := by
  unfold eventsOf
  rw [List.filterMap_cons]
  simp [h]

theorem runEntries_ok_char {is_dir : String → Bool} {writeOk : String → String → Bool}
    {rd : String} {valid : Bool} {t : Target} :
    ∀ (snap : List (Nat × Entry)) (cur : List Entry) (ws : List WriteEvent)
      (cur' : List Entry) (ws' : List WriteEvent),
      runEntries is_dir writeOk rd valid t snap cur ws = .ok (cur', ws') →
      cur' = cur.map (chainRepl is_dir rd snap) ∧
        ws' = ws ++ (if valid then [] else eventsOf is_dir rd t snap) := by
  intro snap
  induction snap with
  | nil =>
    intro cur ws cur' ws' h
    rw [runEntries] at h
    cases h
    refine ⟨(map_chainRepl_nil is_dir rd cur).symm, ?_⟩
    cases valid <;> simp [eventsOf]
  | cons ie snap ih =>
    intro cur ws cur' ws' h
    obtain ⟨index, e⟩ := ie
    rw [runEntries] at h
    by_cases hdir : is_dir e.2 = true
    · rw [if_pos hdir] at h
      by_cases hv : valid = true
      · rw [if_pos hv] at h
        obtain ⟨h1, h2⟩ := ih _ _ _ _ h
        refine ⟨?_, ?_⟩
        · rw [h1, replaceTuple_eq_map hdir, ← map_chainRepl_cons]
        · rw [if_pos hv] at h2
          rw [if_pos hv, h2]
      · have hv' : valid = false := by
          cases valid
          · rfl
          · exact absurd rfl hv
        rw [if_neg hv] at h
        by_cases hw : writeOk (jarpathFor rd index) e.2 = true
        · rw [if_pos hw] at h
          obtain ⟨h1, h2⟩ := ih _ _ _ _ h
          refine ⟨?_, ?_⟩
          · rw [h1, replaceTuple_eq_map hdir, ← map_chainRepl_cons]
          · rw [if_neg hv] at h2
            rw [if_neg hv, h2, eventsOf_cons_dir hdir]
            simp
        · rw [if_neg hw] at h
          cases h
    · rw [if_neg hdir] at h
      obtain ⟨h1, h2⟩ := ih _ _ _ _ h
      have hdir' : is_dir e.2 = false := by
        cases he : is_dir e.2
        · rfl
        · exact absurd he hdir
      refine ⟨?_, ?_⟩
      · rw [h1, map_chainRepl_cons, map_replOne_dirfalse hdir']
      · rw [h2]
        cases valid
        · rw [if_neg (by simp), if_neg (by simp), eventsOf_cons_nondir hdir']
        · rw [if_pos rfl, if_pos rfl]

theorem runEntries_nodir_ok {is_dir : String → Bool} {writeOk : String → String → Bool}
    {rd : String} {valid : Bool} {t : Target} :
    ∀ (snap : List (Nat × Entry)) (cur : List Entry) (ws : List WriteEvent),
      (∀ ie ∈ snap, is_dir ie.2.2 = false) →
      runEntries is_dir writeOk rd valid t snap cur ws = .ok (cur, ws) := by
  intro snap
  induction snap with
  | nil => intro cur ws _; rfl
  | cons ie snap ih =>
    intro cur ws h
    obtain ⟨index, e⟩ := ie
    have he : is_dir e.2 = false := h (index, e) (List.mem_cons_self _ _)
    rw [runEntries, if_neg (by rw [he]; decide)]
    exact ih cur ws fun ie' hie => h ie' (List.mem_cons_of_mem _ hie)

theorem getEntries_setEntries_self :
    ∀ (m : Manifest) (t : Target) (es : List Entry),
      getEntries (setEntries m t es) t = es := by
  intro m
  induction m with
  | nil => intro t es; simp [setEntries, getEntries]
  | cons p m ih =>
    intro t es
    by_cases h : p.1 = t
    · simp [setEntries, getEntries, h]
    · simp only [setEntries, if_neg h, getEntries]
      exact ih t es


theorem getEntries_setEntries_ne :
    ∀ (m : Manifest) (t u : Target) (es : List Entry), u ≠ t →
      getEntries (setEntries m t es) u = getEntries m u := by
  intro m
  induction m with
  | nil =>
    intro t u es hu
    simp only [setEntries, getEntries]
    rw [if_neg (fun h => hu h.symm)]
  | cons p m ih =>
    intro t u es hu
    by_cases h : p.1 = t
    · simp only [setEntries, if_pos h, getEntries]
      rw [if_neg (fun h' => hu h'.symm), if_neg (fun h' => hu (h'.symm.trans h))]
    · simp only [setEntries, if_neg h, getEntries]
      by_cases h' : p.1 = u
      · rw [if_pos h', if_pos h']
      · rw [if_neg h', if_neg h']
        exact ih t u es hu

theorem consolidateTarget_ok_char {is_dir : String → Bool} {writeOk : String → String → Bool}
    {oracle : Target → VtInfo} {m : Manifest} {ws : List WriteEvent} {t : Target}
    {m₁ : Manifest} {ws₁ : List WriteEvent}
    (h : consolidateTarget is_dir writeOk oracle m ws t = .ok (m₁, ws₁)) :
    getEntries m₁ t =
      (getEntries m t).map (chainRepl is_dir (oracle t).results_dir (getEntries m t).enum) ∧
    (∀ u, u ≠ t → getEntries m₁ u = getEntries m u) ∧
    ws₁ = ws ++ (if (oracle t).valid then []
      else eventsOf is_dir (oracle t).results_dir t (getEntries m t).enum) := by
  simp only [consolidateTarget] at h
  cases hr : runEntries is_dir writeOk (oracle t).results_dir (oracle t).valid t
      (getEntries m t).enum (getEntries m t) ws with
  | error e =>
    rw [hr] at h
    cases h
  | ok p =>
    obtain ⟨es', ws''⟩ := p
    rw [hr] at h
    cases h
    obtain ⟨h1, h2⟩ := runEntries_ok_char _ _ _ _ _ hr
    exact ⟨by rw [getEntries_setEntries_self, h1],
      fun u hu => getEntries_setEntries_ne _ _ _ _ hu, h2⟩

theorem consolidateTarget_error_frame {is_dir : String → Bool}
    {writeOk : String → String → Bool} {oracle : Target → VtInfo} {m : Manifest}
    {ws : List WriteEvent} {t : Target} {jp : String} {m₁ : Manifest}
    {ws₁ : List WriteEvent}
    (h : consolidateTarget is_dir writeOk oracle m ws t = .error (jp, m₁, ws₁)) :
    ∀ u, u ≠ t → getEntries m₁ u = getEntries m u := by
  simp only [consolidateTarget] at h
  cases hr : runEntries is_dir writeOk (oracle t).results_dir (oracle t).valid t
      (getEntries m t).enum (getEntries m t) ws with
  | error e =>
    obtain ⟨jp', es', ws''⟩ := e
    rw [hr] at h
    cases h
    exact fun u hu => getEntries_setEntries_ne _ _ _ _ hu
  | ok p =>
    rw [hr] at h
    cases h

section RunLemmas

variable {is_dir : String → Bool} {writeOk : String → String → Bool}
variable {oracle : Target → VtInfo}

theorem consolidateTargets_append_ok :
    ∀ (xs ys : List Target) (m : Manifest) (ws : List WriteEvent) (m₁ : Manifest)
      (ws₁ : List WriteEvent),
      consolidateTargets is_dir writeOk oracle xs m ws = .ok m₁ ws₁ →
      consolidateTargets is_dir writeOk oracle (xs ++ ys) m ws =
        consolidateTargets is_dir writeOk oracle ys m₁ ws₁ := by
  intro xs
  induction xs with
  | nil =>
    intro ys m ws m₁ ws₁ h
    rw [consolidateTargets] at h
    cases h
    rfl
  | cons t xs ih =>
    intro ys m ws m₁ ws₁ h
    rw [consolidateTargets] at h
    rw [List.cons_append, consolidateTargets]
    cases hc : consolidateTarget is_dir writeOk oracle m ws t with
    | ok p =>
      obtain ⟨m', ws'⟩ := p
      rw [hc] at h
      exact ih ys m' ws' m₁ ws₁ h
    | error e =>
      obtain ⟨jp, m', ws'⟩ := e
      rw [hc] at h
      cases h

theorem consolidateTargets_append_failed :
    ∀ (xs ys : List Target) (m : Manifest) (ws : List WriteEvent) (x : Target)
      (jp : String) (m₁ : Manifest) (ws₁ : List WriteEvent),
      consolidateTargets is_dir writeOk oracle xs m ws = .failed x jp m₁ ws₁ →
      consolidateTargets is_dir writeOk oracle (xs ++ ys) m ws = .failed x jp m₁ ws₁ := by
  intro xs
  induction xs with
  | nil =>
    intro ys m ws x jp m₁ ws₁ h
    rw [consolidateTargets] at h
    cases h
  | cons t xs ih =>
    intro ys m ws x jp m₁ ws₁ h
    rw [consolidateTargets] at h
    rw [List.cons_append, consolidateTargets]
    cases hc : consolidateTarget is_dir writeOk oracle m ws t with
    | ok p =>
      obtain ⟨m', ws'⟩ := p
      rw [hc] at h
      exact ih ys m' ws' x jp m₁ ws₁ h
    | error e =>
      obtain ⟨jp', m', ws'⟩ := e
      rw [hc] at h
      exact h

theorem consolidateTargets_failed_mem :
    ∀ (ts : List Target) (m : Manifest) (ws : List WriteEvent) (x : Target)
      (jp : String) (m' : Manifest) (ws' : List WriteEvent),
      consolidateTargets is_dir writeOk oracle ts m ws = .failed x jp m' ws' →
      x ∈ ts := by
  intro ts
  induction ts with
  | nil =>
    intro m ws x jp m' ws' h
    rw [consolidateTargets] at h
    cases h
  | cons u ts ih =>
    intro m ws x jp m' ws' h
    rw [consolidateTargets] at h
    cases hc : consolidateTarget is_dir writeOk oracle m ws u with
    | ok p =>
      obtain ⟨m₁, ws₁⟩ := p
      rw [hc] at h
      exact List.mem_cons_of_mem _ (ih m₁ ws₁ x jp m' ws' h)
    | error e =>
      obtain ⟨jp', m₁, ws₁⟩ := e
      rw [hc] at h
      cases h
      exact List.mem_cons_self _ _

theorem consolidateTargets_frame :
    ∀ (ts : List Target) (m : Manifest) (ws : List WriteEvent) (u : Target), u ∉ ts →
      getEntries (consolidateTargets is_dir writeOk oracle ts m ws).manifest u =
        getEntries m u := by
  intro ts
  induction ts with
  | nil => intro m ws u _; rfl
  | cons t ts ih =>
    intro m ws u hu
    have hut : u ≠ t := fun h => hu (h ▸ List.mem_cons_self t ts)
    have huts : u ∉ ts := fun h => hu (List.mem_cons_of_mem t h)
    rw [consolidateTargets]
    cases hc : consolidateTarget is_dir writeOk oracle m ws t with
    | ok p =>
      obtain ⟨m', ws'⟩ := p
      obtain ⟨-, hfr, -⟩ := consolidateTarget_ok_char hc
      exact (ih m' ws' u huts).trans (hfr u hut)
    | error e =>
      obtain ⟨jp, m', ws'⟩ := e
      exact consolidateTarget_error_frame hc u hut

theorem consolidateTargets_nodir :
    ∀ (ts : List Target) (m : Manifest) (ws : List WriteEvent) (t : Target),
      (∀ e ∈ getEntries m t, is_dir e.2 = false) →
      ∀ e ∈ getEntries (consolidateTargets is_dir writeOk oracle ts m ws).manifest t,
        is_dir e.2 = false := by
  intro ts
  induction ts with
  | nil => intro m ws t h e he; exact h e he
  | cons u ts ih =>
    intro m ws t h
    rw [consolidateTargets]
    by_cases hut : u = t
    · subst hut
      have hsnap : ∀ ie ∈ (getEntries m u).enum, is_dir ie.2.2 = false := fun ie hie =>
        h ie.2 (snd_mem_of_mem_enumFrom _ _ hie)
      have hrun := @runEntries_nodir_ok is_dir writeOk (oracle u).results_dir
        (oracle u).valid u (getEntries m u).enum (getEntries m u) ws hsnap
      have hc : consolidateTarget is_dir writeOk oracle m ws u =
          .ok (setEntries m u (getEntries m u), ws) := by
        simp only [consolidateTarget]
        rw [hrun]
      rw [hc]
      apply ih
      intro e he
      rw [getEntries_setEntries_self] at he
      exact h e he
    · cases hc : consolidateTarget is_dir writeOk oracle m ws u with
      | ok p =>
        obtain ⟨m', ws'⟩ := p
        apply ih
        intro e he
        obtain ⟨-, hfr, -⟩ := consolidateTarget_ok_char hc
        rw [hfr t (fun hh => hut hh.symm)] at he
        exact h e he
      | error e0 =>
        obtain ⟨jp, m', ws'⟩ := e0
        show ∀ e ∈ getEntries m' t, is_dir e.2 = false
        intro e he
        rw [consolidateTarget_error_frame hc t (fun hh => hut hh.symm)] at he
        exact h e he

theorem consolidateTargets_complete
    (hjar : ∀ rd i, is_dir (jarpathFor rd i) = false) :
    ∀ (ts : List Target) (m : Manifest) (ws : List WriteEvent) (m' : Manifest)
      (ws' : List WriteEvent),
      consolidateTargets is_dir writeOk oracle ts m ws = .ok m' ws' →
      ∀ t ∈ ts, ∀ e ∈ getEntries m' t, is_dir e.2 = false := by
  intro ts
  induction ts with
  | nil =>
    intro m ws m' ws' h t ht
    cases ht
  | cons u ts ih =>
    intro m ws m' ws' h t ht
    rw [consolidateTargets] at h
    cases hc : consolidateTarget is_dir writeOk oracle m ws u with
    | error e0 =>
      obtain ⟨jp, m₁, ws₁⟩ := e0
      rw [hc] at h
      cases h
    | ok p =>
      obtain ⟨m₁, ws₁⟩ := p
      rw [hc] at h
      rcases List.mem_cons.mp ht with rfl | ht'
      · have hm₁ : ∀ e ∈ getEntries m₁ t, is_dir e.2 = false := by
          obtain ⟨hchar, -, -⟩ := consolidateTarget_ok_char hc
          rw [hchar]
          intro e he
          obtain ⟨x, hx, rfl⟩ := List.mem_map.mp he
          cases hxd : is_dir x.2 with
          | true => exact chainRepl_dir hjar _ x (mem_enumFrom_of_mem _ 0 hx) hxd
          | false => rw [chainRepl_nondir hxd]; exact hxd
        have h' : consolidateTargets is_dir writeOk oracle ts m₁ ws₁ = Outcome.ok m' ws' := h
        have hpres := @consolidateTargets_nodir is_dir writeOk oracle ts m₁ ws₁ t hm₁
        rw [h'] at hpres
        exact hpres
      · exact ih m₁ ws₁ m' ws' h t ht'

theorem consolidateTargets_fst :
    ∀ (ts : List Target) (m : Manifest) (ws : List WriteEvent) (m' : Manifest)
      (ws' : List WriteEvent),
      consolidateTargets is_dir writeOk oracle ts m ws = .ok m' ws' →
      ∀ t, (getEntries m' t).map Prod.fst = (getEntries m t).map Prod.fst := by
  intro ts
  induction ts with
  | nil =>
    intro m ws m' ws' h t
    rw [consolidateTargets] at h
    cases h
    rfl
  | cons u ts ih =>
    intro m ws m' ws' h t
    rw [consolidateTargets] at h
    cases hc : consolidateTarget is_dir writeOk oracle m ws u with
    | error e0 =>
      obtain ⟨jp, m₁, ws₁⟩ := e0
      rw [hc] at h
      cases h
    | ok p =>
      obtain ⟨m₁, ws₁⟩ := p
      rw [hc] at h
      have hstep : (getEntries m₁ t).map Prod.fst = (getEntries m t).map Prod.fst := by
        by_cases hut : t = u
        · subst hut
          obtain ⟨hchar, -, -⟩ := consolidateTarget_ok_char hc
          rw [hchar, List.map_map]
          exact List.map_congr_left fun x _ => chainRepl_fst _ _ _ x
        · obtain ⟨-, hfr, -⟩ := consolidateTarget_ok_char hc
          rw [hfr t hut]
      rw [ih m₁ ws₁ m' ws' h t, hstep]

theorem mem_eventsOf {rd : String} {t : Target} {w : WriteEvent} :
    ∀ (snap : List (Nat × Entry)), w ∈ eventsOf is_dir rd t snap →
      w.target = t ∧ is_dir w.source = true := by
  intro snap hw
  unfold eventsOf at hw
  obtain ⟨ie, hie, hsome⟩ := List.mem_filterMap.mp hw
  by_cases hd : is_dir ie.2.2 = true
  · rw [if_pos hd] at hsome
    cases hsome
    exact ⟨rfl, hd⟩
  · rw [if_neg hd] at hsome
    cases hsome

theorem consolidateTargets_writes :
    ∀ (ts : List Target) (m : Manifest) (ws : List WriteEvent) (m' : Manifest)
      (ws' : List WriteEvent),
      consolidateTargets is_dir writeOk oracle ts m ws = .ok m' ws' →
      ∀ w ∈ ws', w ∈ ws ∨ ((oracle w.target).valid = false ∧ is_dir w.source = true) := by
  intro ts
  induction ts with
  | nil =>
    intro m ws m' ws' h w hw
    rw [consolidateTargets] at h
    cases h
    exact Or.inl hw
  | cons u ts ih =>
    intro m ws m' ws' h w hw
    rw [consolidateTargets] at h
    cases hc : consolidateTarget is_dir writeOk oracle m ws u with
    | error e0 =>
      obtain ⟨jp, m₁, ws₁⟩ := e0
      rw [hc] at h
      cases h
    | ok p =>
      obtain ⟨m₁, ws₁⟩ := p
      rw [hc] at h
      rcases ih m₁ ws₁ m' ws' h w hw with hw₁ | hnew
      · obtain ⟨-, -, hws₁⟩ := consolidateTarget_ok_char hc
        rw [hws₁] at hw₁
        cases hval : (oracle u).valid with
        | true =>
          rw [if_pos hval, List.append_nil] at hw₁
          exact Or.inl hw₁
        | false =>
          rw [if_neg (by rw [hval]; decide)] at hw₁
          rcases List.mem_append.mp hw₁ with hw₂ | hw₂
          · exact Or.inl hw₂
          · obtain ⟨htar, hsrc⟩ := mem_eventsOf _ hw₂
            exact Or.inr ⟨by rw [htar, hval], hsrc⟩
      · exact Or.inr hnew

end RunLemmas

theorem swapAll_length (is_dir : String → Bool) (rd : String) :
    ∀ (k : Nat) (es : List Entry), (swapAll is_dir rd k es).length = es.length := by
  intro k es
  induction es generalizing k with
  | nil => rfl
  | cons e es ih =>
    rw [swapAll]
    simp [ih]

theorem swapAll_getElem? (is_dir : String → Bool) (rd : String) :
    ∀ (es : List Entry) (k j : Nat),
      (swapAll is_dir rd k es)[j]? =
        (es[j]?).map (fun e => if is_dir e.2 then (e.1, jarpathFor rd (k + j)) else e) := by
  intro es
  induction es with
  | nil => intro k j; simp [swapAll]
  | cons e es ih =>
    intro k j
    cases j with
    | zero => simp [swapAll]
    | succ j' =>
      rw [swapAll, List.getElem?_cons_succ, List.getElem?_cons_succ, ih (k + 1) j']
      have harith : k + 1 + j' = k + (j' + 1) := by omega
      rw [harith]

theorem chainRepl_enumFrom {is_dir : String → Bool} {rd : String}
    (hjar : ∀ rd' i, is_dir (jarpathFor rd' i) = false) :
    ∀ (es : List Entry) (k j : Nat) (hj : j < es.length), es.Nodup →
      chainRepl is_dir rd (es.enumFrom k) es[j] =
        if is_dir es[j].2 then (es[j].1, jarpathFor rd (k + j)) else es[j] := by
  intro es
  induction es with
  | nil =>
    intro k j hj _
    cases hj
  | cons e es ih =>
    intro k j hj hnd
    obtain ⟨hne, hnd'⟩ := List.nodup_cons.mp hnd
    rw [List.enumFrom_cons]
    cases j with
    | zero =>
      simp only [List.getElem_cons_zero]
      rw [chainRepl]
      cases hd : is_dir e.2 with
      | true =>
        have hrepl : replOne is_dir rd (k, e) e = (e.1, jarpathFor rd k) := by
          unfold replOne
          rw [if_pos ⟨hd, rfl⟩]
        rw [hrepl, chainRepl_nondir (hjar rd k), if_pos rfl, Nat.add_zero]
      | false =>
        rw [replOne_nondir hd, chainRepl_nondir hd, if_neg (by decide)]
    | succ j' =>
      simp only [List.getElem_cons_succ]
      simp only [List.length_cons] at hj
      have hj' : j' < es.length := by omega
      have hx : es[j'] ≠ e := by
        intro hh
        exact hne (hh ▸ List.getElem_mem hj')
      rw [chainRepl, replOne_ne (by rw [show ((k, e) : Nat × Entry).2 = e from rfl]; exact hx),
        ih (k + 1) j' hj' hnd']
      have harith : k + 1 + j' = k + (j' + 1) := by omega
      rw [harith]

theorem map_chainRepl_enum {is_dir : String → Bool} {rd : String}
    (hjar : ∀ rd' i, is_dir (jarpathFor rd' i) = false)
    (es : List Entry) (hnd : es.Nodup) :
    es.map (chainRepl is_dir rd es.enum) = swapAll is_dir rd 0 es := by
  apply List.ext_getElem?
  intro j
  rw [List.getElem?_map, swapAll_getElem?]
  by_cases hj : j < es.length
  · rw [List.getElem?_eq_getElem hj]
    have henum : es.enum = es.enumFrom 0 := rfl
    rw [Option.map_some', Option.map_some', henum, chainRepl_enumFrom hjar es 0 j hj hnd,
      Nat.zero_add]
  · rw [List.getElem?_eq_none (Nat.le_of_not_lt hj)]
    rfl

section RunChar

variable {is_dir : String → Bool} {writeOk : String → String → Bool}
variable {oracle : Target → VtInfo}

theorem consolidate_run_target_map
    {targets : List Target} {m m' : Manifest} {ws : List WriteEvent} {t : Target}
    (hndt : targets.Nodup) (ht : t ∈ targets)
    (h : _consolidate_classpath is_dir writeOk oracle targets m = .ok m' ws) :
    getEntries m' t =
      (getEntries m t).map (chainRepl is_dir (oracle t).results_dir (getEntries m t).enum) := by
  obtain ⟨pre, post, rfl⟩ := List.append_of_mem ht
  rw [List.nodup_append] at hndt
  obtain ⟨hnpre, hnmid, hdisj⟩ := hndt
  have htpre : t ∉ pre := fun hp => hdisj hp (List.mem_cons_self _ _)
  have htpost : t ∉ post := (List.nodup_cons.mp hnmid).1
  unfold _consolidate_classpath at h
  cases hpre : consolidateTargets is_dir writeOk oracle pre m [] with
  | failed x jp m₁ ws₁ =>
    rw [consolidateTargets_append_failed pre (t :: post) m [] x jp m₁ ws₁ hpre] at h
    cases h
  | ok m₁ ws₁ =>
    rw [consolidateTargets_append_ok pre (t :: post) m [] m₁ ws₁ hpre] at h
    have hm₁t : getEntries m₁ t = getEntries m t := by
      have hfr := @consolidateTargets_frame is_dir writeOk oracle pre m [] t htpre
      rw [hpre] at hfr
      exact hfr
    rw [consolidateTargets] at h
    cases hc : consolidateTarget is_dir writeOk oracle m₁ ws₁ t with
    | error e0 =>
      obtain ⟨jp, m₂, ws₂⟩ := e0
      rw [hc] at h
      cases h
    | ok p =>
      obtain ⟨m₂, ws₂⟩ := p
      rw [hc] at h
      have h' : consolidateTargets is_dir writeOk oracle post m₂ ws₂ = .ok m' ws := h
      obtain ⟨hchar, -, -⟩ := consolidateTarget_ok_char hc
      have hfinal : getEntries m' t = getEntries m₂ t := by
        have hfr := @consolidateTargets_frame is_dir writeOk oracle post m₂ ws₂ t htpost
        rw [h'] at hfr
        exact hfr
      rw [hfinal, hchar, hm₁t]

theorem consolidate_run_target_swap
    {targets : List Target} {m m' : Manifest} {ws : List WriteEvent} {t : Target}
    (hjar : ∀ rd i, is_dir (jarpathFor rd i) = false)
    (hndt : targets.Nodup) (ht : t ∈ targets) (hnd : (getEntries m t).Nodup)
    (h : _consolidate_classpath is_dir writeOk oracle targets m = .ok m' ws) :
    getEntries m' t = swapAll is_dir (oracle t).results_dir 0 (getEntries m t) := by
  rw [consolidate_run_target_map hndt ht h, map_chainRepl_enum hjar _ hnd]

end RunChar

theorem hasClasspathDirectory_eq_any (is_dir : String → Bool) :
    ∀ es : List Entry, hasClasspathDirectory is_dir es = es.any fun e => is_dir e.2 := by
  intro es
  induction es with
  | nil => rfl
  | cons e es ih => cases hd : is_dir e.2 <;> simp [hasClasspathDirectory, hd, ih]

/-- C1: Completeness — after a successful run of the consolidation over a target
set, no entry of any processed target is directory-kind any more: every
directory entry has been replaced, and each entry kept its conf (so directory
entries were swapped for archive entries under the same conf). -/
theorem claim_completeness (is_dir : String → Bool) (writeOk : String → String → Bool)
    (oracle : Target → VtInfo) (targets : List Target) (m m' : Manifest)
    (ws : List WriteEvent)
    (hjar : ∀ rd i, is_dir (jarpathFor rd i) = false)
    (h : _consolidate_classpath is_dir writeOk oracle targets m = .ok m' ws) :
    ∀ t ∈ targets, (∀ e ∈ getEntries m' t, is_dir e.2 = false) ∧
      (getEntries m' t).map Prod.fst = (getEntries m t).map Prod.fst := by
  intro t ht
  exact ⟨consolidateTargets_complete hjar targets m [] m' ws h t ht,
    consolidateTargets_fst targets m [] m' ws h t⟩

/-- C1 witness: the spec's example scenario — target 1's loose directory is
consolidated, target 2 already referenced an archive. -/
theorem claim_completeness_witness :
    (∀ e ∈ getEntries [(1, [("default", "/out/T1/output-0.jar")]),
        (2, [("default", "/build/T2/out.jar")])] 1, sampleIsDir e.2 = false) ∧
    (getEntries [(1, [("default", "/out/T1/output-0.jar")]),
        (2, [("default", "/build/T2/out.jar")])] 1).map Prod.fst =
      (getEntries sampleManifest 1).map Prod.fst :=
  claim_completeness sampleIsDir sampleWriteOk sampleOracle [1, 2] sampleManifest
    [(1, [("default", "/out/T1/output-0.jar")]), (2, [("default", "/build/T2/out.jar")])]
    [⟨1, "/out/T1/output-0.jar", "/build/T1/classes"⟩] sampleIsDir_hjar rfl 1 (by decide)

/-- C4: Index stability — the archive path assigned to position `i` of a
target's entry sequence is exactly the results directory joined with
`output-<i>.jar` (a pure function of the results directory and the index),
and distinct positions of the same target get distinct archive paths. -/
theorem claim_index_stability (rd : String) (i j : Nat) :
    jarpathFor rd i = rd ++ "/output-" ++ natString i ++ ".jar" ∧
    (i ≠ j → jarpathFor rd i ≠ jarpathFor rd j) :=
  ⟨rfl, fun hne heq => hne (jarpathFor_inj rd heq)⟩

/-- C4 witness: positions 0 and 1 of results dir `/out/T1` get distinct paths. -/
theorem claim_index_stability_witness :
    jarpathFor "/out/T1" 0 = "/out/T1" ++ "/output-" ++ natString 0 ++ ".jar" ∧
    jarpathFor "/out/T1" 0 ≠ jarpathFor "/out/T1" 1 :=
  ⟨(claim_index_stability "/out/T1" 0 1).1,
    (claim_index_stability "/out/T1" 0 1).2 (by decide)⟩

/-- C7: Classifier correctness — `_find_consolidate_classpath_candidates`
selects a target iff it is among the input targets and some entry of its full
entry sequence has a directory path; a target with an empty entry sequence is
never selected (the classifier is a pure function of the manifest). -/
theorem claim_classifier_correct (is_dir : String → Bool) (m : Manifest)
    (targets : List Target) (t : Target) :
    (t ∈ _find_consolidate_classpath_candidates is_dir m targets ↔
      t ∈ targets ∧ ∃ e ∈ getEntries m t, is_dir e.2 = true) ∧
    (getEntries m t = [] →
      t ∉ _find_consolidate_classpath_candidates is_dir m targets) := by
  have hiff : t ∈ _find_consolidate_classpath_candidates is_dir m targets ↔
      t ∈ targets ∧ ∃ e ∈ getEntries m t, is_dir e.2 = true := by
    simp only [_find_consolidate_classpath_candidates, List.mem_filter,
      hasClasspathDirectory_eq_any, List.any_eq_true]
  refine ⟨hiff, fun hemp hmem => ?_⟩
  obtain ⟨-, e, he, -⟩ := hiff.mp hmem
  rw [hemp] at he
  cases he

/-- C7 witness: on the example manifest, target 1 is selected and target 2's
archive-only sequence with the same input list gives the iff concretely. -/
theorem claim_classifier_correct_witness :
    (1 ∈ _find_consolidate_classpath_candidates sampleIsDir sampleManifest [1, 2] ↔
      1 ∈ [1, 2] ∧ ∃ e ∈ getEntries sampleManifest 1, sampleIsDir e.2 = true) ∧
    (getEntries sampleManifest 1 = [] →
      1 ∉ _find_consolidate_classpath_candidates sampleIsDir sampleManifest [1, 2]) :=
  claim_classifier_correct sampleIsDir sampleManifest [1, 2] 1

/-- C9: `execute` never mutates the `runtime_classpath` product — the
consolidation operates on the separate `consolidated_classpath` product,
initialised as a copy of `runtime_classpath` when absent, so the
`runtime_classpath` mapping after `execute` equals the one before. -/
theorem claim_execute_preserves_runtime (is_dir : String → Bool)
    (writeOk : String → String → Bool) (oracle : Target → VtInfo)
    (targets : List Target) (p : Products) :
    (execute is_dir writeOk oracle targets p).1.runtime_classpath =
      p.runtime_classpath := rfl

/-- C10 counterexample: with the duplicated input target list `[1, 1]` the
selected target 1 appears twice in the candidate list, so the candidate list
does not contain each selected target exactly once for every input list. -/
theorem claim_candidates_unique_cex :
    1 ∈ _find_consolidate_classpath_candidates sampleIsDir sampleManifest [1, 1] ∧
    (_find_consolidate_classpath_candidates sampleIsDir sampleManifest [1, 1]).count 1 = 2 := by
  decide

/-- C10 (amended): for every duplicate-free input target list, the candidate
list contains each selected target exactly once and preserves the relative
order of the input list (it is a sublist of the input). -/
theorem claim_candidates_unique_and_ordered (is_dir : String → Bool) (m : Manifest)
    (targets : List Target) (hnd : targets.Nodup) :
    (∀ t ∈ _find_consolidate_classpath_candidates is_dir m targets,
      (_find_consolidate_classpath_candidates is_dir m targets).count t = 1) ∧
    (_find_consolidate_classpath_candidates is_dir m targets).Sublist targets := by
  refine ⟨fun t ht => List.count_eq_one_of_mem (hnd.filter _) ht, List.filter_sublist targets⟩

/-- C10 witness: the duplicate-free input list `[1, 2]` on the example
manifest. -/
theorem claim_candidates_unique_and_ordered_witness :
    (∀ t ∈ _find_consolidate_classpath_candidates sampleIsDir sampleManifest [1, 2],
      (_find_consolidate_classpath_candidates sampleIsDir sampleManifest [1, 2]).count t = 1) ∧
    (_find_consolidate_classpath_candidates sampleIsDir sampleManifest [1, 2]).Sublist [1, 2] :=
  claim_candidates_unique_and_ordered sampleIsDir sampleManifest [1, 2] (by decide)

theorem execute_eq (is_dir : String → Bool) (writeOk : String → String → Bool)
    (oracle : Target → VtInfo) (targets : List Target) (p : Products) :
    execute is_dir writeOk oracle targets p =
      ((⟨p.runtime_classpath,
        some (_consolidate_classpath is_dir writeOk oracle
          (_find_consolidate_classpath_candidates is_dir
            (p.consolidated_classpath.getD p.runtime_classpath) targets)
          (p.consolidated_classpath.getD p.runtime_classpath)).manifest⟩ : Products),
       _consolidate_classpath is_dir writeOk oracle
        (_find_consolidate_classpath_candidates is_dir
          (p.consolidated_classpath.getD p.runtime_classpath) targets)
        (p.consolidated_classpath.getD p.runtime_classpath)) := rfl

/-- C2: Idempotence — if a run of `execute` succeeds, running `execute` again
with the same arguments on the resulting products is a no-op: the candidate
filter finds no directory entries in the consolidated manifest (archive paths
are not directories), so the second run returns the same products, the same
manifest, and performs no writes. -/
theorem claim_idempotence (is_dir : String → Bool) (writeOk : String → String → Bool)
    (oracle : Target → VtInfo) (targets : List Target) (p p₁ : Products)
    (m₁ : Manifest) (ws : List WriteEvent)
    (hjar : ∀ rd i, is_dir (jarpathFor rd i) = false)
    (h : execute is_dir writeOk oracle targets p = (p₁, .ok m₁ ws)) :
    execute is_dir writeOk oracle targets p₁ = (p₁, .ok m₁ []) := by
  rw [execute_eq, Prod.mk.injEq] at h
  obtain ⟨h1, h2⟩ := h
  have h2' : consolidateTargets is_dir writeOk oracle
      (_find_consolidate_classpath_candidates is_dir
        (p.consolidated_classpath.getD p.runtime_classpath) targets)
      (p.consolidated_classpath.getD p.runtime_classpath) [] = .ok m₁ ws := h2
  have hman : (_consolidate_classpath is_dir writeOk oracle
      (_find_consolidate_classpath_candidates is_dir
        (p.consolidated_classpath.getD p.runtime_classpath) targets)
      (p.consolidated_classpath.getD p.runtime_classpath)).manifest = m₁ := by
    rw [h2]
    rfl
  have hp₁ : p₁ = ⟨p.runtime_classpath, some m₁⟩ := by
    rw [← h1, hman]
  subst hp₁
  have hnodir2 : ∀ t ∈ targets,
      hasClasspathDirectory is_dir (getEntries m₁ t) = false := by
    intro t ht
    rw [hasClasspathDirectory_eq_any]
    by_cases hc : t ∈ _find_consolidate_classpath_candidates is_dir
        (p.consolidated_classpath.getD p.runtime_classpath) targets
    · have hcomp := consolidateTargets_complete hjar _ _ [] m₁ ws h2' t hc
      cases hq : (getEntries m₁ t).any fun e => is_dir e.2 with
      | false => rfl
      | true =>
        obtain ⟨e, he, hde⟩ := List.any_eq_true.mp hq
        rw [hcomp e he] at hde
        cases hde
    · have hfr := @consolidateTargets_frame is_dir writeOk oracle
        (_find_consolidate_classpath_candidates is_dir
          (p.consolidated_classpath.getD p.runtime_classpath) targets)
        (p.consolidated_classpath.getD p.runtime_classpath) [] t hc
      rw [h2'] at hfr
      have hfr' : getEntries m₁ t =
          getEntries (p.consolidated_classpath.getD p.runtime_classpath) t := hfr
      have hpred : hasClasspathDirectory is_dir
          (getEntries (p.consolidated_classpath.getD p.runtime_classpath) t) = false := by
        cases hq : hasClasspathDirectory is_dir
            (getEntries (p.consolidated_classpath.getD p.runtime_classpath) t) with
        | false => rfl
        | true => exact absurd (List.mem_filter.mpr ⟨ht, hq⟩) hc
      rw [hfr', ← hasClasspathDirectory_eq_any]
      exact hpred
  have hcand2 : _find_consolidate_classpath_candidates is_dir m₁ targets = [] := by
    unfold _find_consolidate_classpath_candidates
    rw [List.filter_eq_nil_iff]
    intro t ht
    rw [hnodir2 t ht]
    decide
  rw [execute_eq]
  show ((⟨p.runtime_classpath, some (_consolidate_classpath is_dir writeOk oracle
      (_find_consolidate_classpath_candidates is_dir m₁ targets) m₁).manifest⟩ : Products),
    _consolidate_classpath is_dir writeOk oracle
      (_find_consolidate_classpath_candidates is_dir m₁ targets) m₁) = _
  rw [hcand2]
  rfl

/-- C2 witness: the example scenario, where the first run consolidates target
1 and the second run is a no-op with no writes. -/
theorem claim_idempotence_witness :
    execute sampleIsDir sampleWriteOk sampleOracle [1, 2]
        (⟨sampleManifest, some [(1, [("default", "/out/T1/output-0.jar")]),
          (2, [("default", "/build/T2/out.jar")])]⟩ : Products) =
      (⟨sampleManifest, some [(1, [("default", "/out/T1/output-0.jar")]),
          (2, [("default", "/build/T2/out.jar")])]⟩,
        .ok [(1, [("default", "/out/T1/output-0.jar")]),
          (2, [("default", "/build/T2/out.jar")])] []) :=
  claim_idempotence sampleIsDir sampleWriteOk sampleOracle [1, 2]
    ⟨sampleManifest, none⟩ _ _ _ sampleIsDir_hjar rfl

/-- C3: Skip-on-valid — when the validity token of a processed target reports
valid, the archive writer is never invoked for that target (no write event of
the successful run names it), yet the target's manifest entries are still
rewritten: each directory entry is replaced in place by the archive entry of
its position. -/
theorem claim_skip_on_valid (is_dir : String → Bool) (writeOk : String → String → Bool)
    (oracle : Target → VtInfo) (targets : List Target) (m m' : Manifest)
    (ws : List WriteEvent) (t : Target)
    (hjar : ∀ rd i, is_dir (jarpathFor rd i) = false)
    (hndt : targets.Nodup) (ht : t ∈ targets) (hnd : (getEntries m t).Nodup)
    (hval : (oracle t).valid = true)
    (h : _consolidate_classpath is_dir writeOk oracle targets m = .ok m' ws) :
    (∀ w ∈ ws, w.target ≠ t) ∧
    getEntries m' t = swapAll is_dir (oracle t).results_dir 0 (getEntries m t) := by
  constructor
  · intro w hw hwt
    rcases consolidateTargets_writes targets m [] m' ws h w hw with hmem | ⟨hv, -⟩
    · cases hmem
    · rw [hwt, hval] at hv
      cases hv
  · exact consolidate_run_target_swap hjar hndt ht hnd h

/-- C3 witness: with every target valid, the run writes nothing and target 1's
directory entry is still swapped for the archive path. -/
theorem claim_skip_on_valid_witness :
    (∀ w ∈ ([] : List WriteEvent), w.target ≠ 1) ∧
    getEntries [(1, [("default", "/out/T1/output-0.jar")]),
        (2, [("default", "/build/T2/out.jar")])] 1 =
      swapAll sampleIsDir "/out/T1" 0 (getEntries sampleManifest 1) :=
  claim_skip_on_valid sampleIsDir sampleWriteOk validOracle [1, 2] sampleManifest
    _ _ 1 sampleIsDir_hjar (by decide) (by decide) (by decide) rfl rfl

/-- C5: Order preservation of replacement — a directory entry at position `i`
of a processed target's sequence is replaced by the archive entry at the same
position `i`; the sequence is neither compacted nor renumbered (its length is
unchanged). -/
theorem claim_order_preserving (is_dir : String → Bool) (writeOk : String → String → Bool)
    (oracle : Target → VtInfo) (targets : List Target) (m m' : Manifest)
    (ws : List WriteEvent) (t : Target) (i : Nat) (e : Entry)
    (hjar : ∀ rd i', is_dir (jarpathFor rd i') = false)
    (hndt : targets.Nodup) (ht : t ∈ targets) (hnd : (getEntries m t).Nodup)
    (h : _consolidate_classpath is_dir writeOk oracle targets m = .ok m' ws)
    (hi : (getEntries m t)[i]? = some e) (hdir : is_dir e.2 = true) :
    (getEntries m' t).length = (getEntries m t).length ∧
    (getEntries m' t)[i]? = some (e.1, jarpathFor (oracle t).results_dir i) := by
  have hchar := consolidate_run_target_swap hjar hndt ht hnd h
  constructor
  · rw [hchar, swapAll_length]
  · rw [hchar, swapAll_getElem?, hi, Option.map_some', if_pos hdir, Nat.zero_add]

/-- C5 witness: target 1's directory entry at position 0 becomes the archive
entry at position 0, with the length unchanged. -/
theorem claim_order_preserving_witness :
    (getEntries [(1, [("default", "/out/T1/output-0.jar")]),
        (2, [("default", "/build/T2/out.jar")])] 1).length =
      (getEntries sampleManifest 1).length ∧
    (getEntries [(1, [("default", "/out/T1/output-0.jar")]),
        (2, [("default", "/build/T2/out.jar")])] 1)[0]? =
      some ("default", jarpathFor "/out/T1" 0) :=
  claim_order_preserving sampleIsDir sampleWriteOk sampleOracle [1, 2] sampleManifest
    _ _ 1 0 ("default", "/build/T1/classes") sampleIsDir_hjar (by decide) (by decide)
    (by decide) rfl rfl rfl

/-- C6: Non-directory passthrough — an entry whose path is not a directory is
left untouched at its position by a successful run, and the archive writer is
only ever invoked on directory paths. -/
theorem claim_non_directory_passthrough (is_dir : String → Bool)
    (writeOk : String → String → Bool) (oracle : Target → VtInfo)
    (targets : List Target) (m m' : Manifest) (ws : List WriteEvent)
    (t : Target) (i : Nat) (e : Entry)
    (hndt : targets.Nodup) (ht : t ∈ targets)
    (h : _consolidate_classpath is_dir writeOk oracle targets m = .ok m' ws)
    (hi : (getEntries m t)[i]? = some e) (hnd : is_dir e.2 = false) :
    (getEntries m' t)[i]? = some e ∧ ∀ w ∈ ws, is_dir w.source = true := by
  constructor
  · rw [consolidate_run_target_map hndt ht h, List.getElem?_map, hi, Option.map_some',
      chainRepl_nondir hnd]
  · intro w hw
    rcases consolidateTargets_writes targets m [] m' ws h w hw with hmem | ⟨-, hsrc⟩
    · cases hmem
    · exact hsrc

/-- C6 witness: target 2's archive entry passes through unchanged and the one
write of the run packaged a directory. -/
theorem claim_non_directory_passthrough_witness :
    (getEntries [(1, [("default", "/out/T1/output-0.jar")]),
        (2, [("default", "/build/T2/out.jar")])] 2)[0]? =
      some ("default", "/build/T2/out.jar") ∧
    ∀ w ∈ [(⟨1, "/out/T1/output-0.jar", "/build/T1/classes"⟩ : WriteEvent)],
      sampleIsDir w.source = true :=
  claim_non_directory_passthrough sampleIsDir sampleWriteOk sampleOracle [1, 2]
    sampleManifest _ _ 2 0 ("default", "/build/T2/out.jar") (by decide) (by decide)
    rfl rfl rfl

/-- C8: Fail-fast manifest safety — when the writer fails on target `x`, the
run aborts with that failure (the exception propagates), every target fully
processed before `x` keeps its rewritten, directory-free entries, and every
target not yet started keeps exactly its pre-run entries. -/
theorem claim_fail_fast (is_dir : String → Bool) (writeOk : String → String → Bool)
    (oracle : Target → VtInfo) (pre post : List Target) (x : Target)
    (m m' : Manifest) (jp : String) (ws : List WriteEvent)
    (hjar : ∀ rd i, is_dir (jarpathFor rd i) = false)
    (hnd : (pre ++ x :: post).Nodup)
    (h : _consolidate_classpath is_dir writeOk oracle (pre ++ x :: post) m =
      .failed x jp m' ws) :
    (∀ t ∈ pre, ∀ e ∈ getEntries m' t, is_dir e.2 = false) ∧
    (∀ t ∈ post, getEntries m' t = getEntries m t) := by
  rw [List.nodup_append] at hnd
  obtain ⟨hnpre, hnmid, hdisj⟩ := hnd
  have hxpre : x ∉ pre := fun hp => hdisj hp (List.mem_cons_self _ _)
  have hxpost : x ∉ post := (List.nodup_cons.mp hnmid).1
  unfold _consolidate_classpath at h
  cases hpre : consolidateTargets is_dir writeOk oracle pre m [] with
  | failed u jp' m₁ ws₁ =>
    rw [consolidateTargets_append_failed pre (x :: post) m [] u jp' m₁ ws₁ hpre] at h
    cases h
    exact absurd (consolidateTargets_failed_mem pre m [] x jp m' ws hpre) hxpre
  | ok m₁ ws₁ =>
    rw [consolidateTargets_append_ok pre (x :: post) m [] m₁ ws₁ hpre] at h
    rw [consolidateTargets] at h
    cases hc : consolidateTarget is_dir writeOk oracle m₁ ws₁ x with
    | ok p =>
      obtain ⟨m₂, ws₂⟩ := p
      rw [hc] at h
      have h' : consolidateTargets is_dir writeOk oracle post m₂ ws₂ =
          .failed x jp m' ws := h
      exact absurd (consolidateTargets_failed_mem post m₂ ws₂ x jp m' ws h') hxpost
    | error e0 =>
      obtain ⟨jp', m₂, ws₂⟩ := e0
      rw [hc] at h
      have h' : Outcome.failed x jp' m₂ ws₂ = Outcome.failed x jp m' ws := h
      cases h'
      constructor
      · intro t htpre e he
        have hne : t ≠ x := fun hh => hdisj (hh ▸ htpre) (List.mem_cons_self _ _)
        rw [consolidateTarget_error_frame hc t hne] at he
        exact consolidateTargets_complete hjar pre m [] m₁ ws₁ hpre t htpre e he
      · intro t htpost
        have hne : t ≠ x := fun hh => hxpost (hh ▸ htpost)
        have htnpre : t ∉ pre := fun hp => hdisj hp (List.mem_cons_of_mem _ htpost)
        rw [consolidateTarget_error_frame hc t hne]
        have hfr := @consolidateTargets_frame is_dir writeOk oracle pre m [] t htnpre
        rw [hpre] at hfr
        exact hfr

/-- C8 witness: the writer fails on target 2; target 1 (already processed)
holds only archive entries, target 3 (not yet started) is untouched. -/
theorem claim_fail_fast_witness :
    (∀ t ∈ [1], ∀ e ∈ getEntries [(1, [("default", "/out/output-0.jar")]),
        (2, [("default", "/b/2/c")]), (3, [("default", "/b/3/c")])] t,
      sampleIsDir e.2 = false) ∧
    (∀ t ∈ [3], getEntries [(1, [("default", "/out/output-0.jar")]),
        (2, [("default", "/b/2/c")]), (3, [("default", "/b/3/c")])] t =
      getEntries failManifest t) :=
  claim_fail_fast sampleIsDir failWriteOk failOracle [1] [3] 2 failManifest
    _ "/out/output-0.jar" _ sampleIsDir_hjar (by decide) rfl

end ConsolidateClasspath
